import Mathlib

/-!
# Link-to-MIDI clock generator (`main/main.cpp`)

A shallow embedding of the phase-locked-loop clock generator of `main/main.cpp`:
`generatePhase` (the phasor update), the loop body of `tickTask` (pulse decision,
virtual time offset), `timer_group0_isr` (dequeue and byte emission) and
`initUartPort` (serial mode).

Modelling conventions.
* `float` values are read as exact rationals (`ℚ`); `fmodf` is the C truncated
  remainder `x - y * trunc (x / y)`. A second set of definitions (`generatePhaseF32`,
  `tickFrameF32`) rounds every operation to IEEE-754 binary32, as the compiled program
  does; it is used where rounding changes the pulse count.
* The function-local statics `phasor` (in `generatePhase`) and `lastPhase` (in
  `tickTask`) are explicit state; both are zero-initialised, as C++ statics are.
* `std::chrono::microseconds` is a signed 64-bit count; the addition on it is
  modelled in two's complement.
* The FreeRTOS queue `gBuf` is a list of bytes (head = oldest element).
* Ableton Link (the phase source) is external: a captured session state is a
  record of its `tempo` and its `phaseAtTime` function.
-/

namespace LinkEsp

/-! ## Build configuration -/

/-- Line 16: `#define USB_MIDI true`. A preprocessor definition is modelled as an
`Option`: `none` is "not defined", `some v` is "defined, expanding to `v`". -/
def USB_MIDI : Option Bool := some true

/-- Line 22: `#define BUF_SIZE 40`. -/
def BUF_SIZE : ℕ := 40

/-- Line 23: `#define FRAME_DUR_US 250`. -/
def FRAME_DUR_US : ℕ := 250

/-- Line 24: `#define FRAME_DUR (FRAME_DUR_US / 1000000.f)`, the frame duration in seconds. -/
def FRAME_DUR : ℚ := (FRAME_DUR_US : ℚ) / 1000000

/-! ## C library and FreeRTOS primitives used by the program -/

/-- Rounding toward zero (C `truncf`). -/
def truncf (x : ℚ) : ℤ := if 0 ≤ x then ⌊x⌋ else ⌈x⌉

/-- C `fmodf`: `x - y * n` where `n` is `x / y` with its fractional part cut off. -/
def fmodf (x y : ℚ) : ℚ := x - y * (truncf (x / y) : ℚ)

/-- FreeRTOS `xQueueReceiveFromISR`: never blocks; on an empty queue it fails
(`pdFALSE`), otherwise it removes and yields the oldest item. -/
def xQueueReceiveFromISR (q : List ℕ) : Option (ℕ × List ℕ) :=
  match q with
  | [] => none
  | item :: rest => some (item, rest)

/-- Two's-complement reduction of an integer to the signed 64-bit range. -/
def wrapInt64 (x : ℤ) : ℤ := (x + 2 ^ 63) % 2 ^ 64 - 2 ^ 63

/-! ## `timer_group0_isr` (lines 28-43) -/

/-- State touched by one firing of the timer interrupt: the queue `gBuf` and the
calls of `uart_write_bytes` made (each call is the list of bytes it was given). -/
structure IsrResult where
  gBuf : List ℕ
  writes : List (List ℕ)
deriving DecidableEq, Repr

/-- One firing of `timer_group0_isr`. `usbMidi` is the preprocessor definition of
`USB_MIDI`; the handler tests it with `#ifdef`, that is, whether it is defined.
The `&&` is short-circuit: `clk` is only read after a successful receive. -/
def timer_group0_isr (usbMidi : Option Bool) (gBuf : List ℕ) : IsrResult :=
  match xQueueReceiveFromISR gBuf with
  | some (clk, rest) =>
    if clk ≠ 0 then
      if usbMidi.isSome then
        { gBuf := rest, writes := [[0x0f, 0xf8, 0x00, 0x00]] }
      else
        { gBuf := rest, writes := [[0xf8]] }
    else
      { gBuf := rest, writes := [] }
  | none => { gBuf := gBuf, writes := [] }

/-! ## `initUartPort` (lines 81-99) -/

/-- The fields of `uart_config_t` that `initUartPort` sets. `parity` and
`flow_ctrl` are `false` for `UART_PARITY_DISABLE` and `UART_HW_FLOWCTRL_DISABLE`. -/
structure uart_config_t where
  baud_rate : ℕ
  data_bits : ℕ
  parity : Bool
  stop_bits : ℕ
  flow_ctrl : Bool
  rx_flow_ctrl_thresh : ℕ
deriving DecidableEq, Repr

/-- The configuration `initUartPort` hands to `uart_param_config`. `usbMidi` is the
value `USB_MIDI` expands to; it is tested with a plain `if (USB_MIDI)`. -/
def initUartPort (usbMidi : Bool) : uart_config_t :=
  let uart_config : uart_config_t :=
    { baud_rate := 31250, data_bits := 8, parity := false, stop_bits := 1,
      flow_ctrl := false, rx_flow_ctrl_thresh := 122 }
  if usbMidi then { uart_config with baud_rate := 115200 } else uart_config

/-! ## `generatePhase` (lines 101-115) -/

/-- One call of `generatePhase`. The first argument is the current value of the
static `phasor`; the result is the pair (new value of the static, returned value). -/
def generatePhase (phasor linkPhase tempo : ℚ) : ℚ × ℚ :=
  let dO := tempo / 60 * 24
  let dO := dO + (linkPhase - phasor) * 15
  let dO := dO * FRAME_DUR
  let phasor := fmodf (phasor + dO) 1
  (phasor, phasor)

/-- The phase delta of one frame: the value of `dO` after line 111. -/
def phaseDelta (phasor linkPhase tempo : ℚ) : ℚ :=
  (tempo / 60 * 24 + (linkPhase - phasor) * 15) * FRAME_DUR

/-! ## `tickTask` (lines 117-145) -/

/-- The state carried around the loop of `tickTask`: the static `phasor` of
`generatePhase`, the static `lastPhase` and the local `offset` (microseconds). -/
structure TickState where
  phasor : ℚ
  lastPhase : ℚ
  offset : ℤ
deriving DecidableEq, Repr

/-- State on entry to the loop: zero-initialised statics, `offset` as read from the
Link clock at line 129. -/
def tickInit (offset0 : ℤ) : TickState :=
  { phasor := 0, lastPhase := 0, offset := offset0 }

/-- What `captureAudioSessionState` yields, as far as `tickTask` uses it:
`tempo ()` and `phaseAtTime (time, quantum)`. -/
structure SessionState where
  tempo : ℚ
  phaseAtTime : ℤ → ℚ → ℚ

/-- Lines 135-143: the loop body once `linkPhase` and the tempo are known. The
result is the next state and the byte `clk` handed to `xQueueSend`. -/
def tickFrame (s : TickState) (linkPhase tempo : ℚ) : TickState × ℕ :=
  let g := generatePhase s.phasor linkPhase tempo
  let phase := g.2
  let clk : ℕ := if phase - s.lastPhase < -(1 / 2) then 1 else 0
  ({ phasor := g.1, lastPhase := phase,
     offset := wrapInt64 (s.offset + (FRAME_DUR_US : ℤ)) }, clk)

/-- Lines 132-143: one loop iteration against the captured session state. -/
def tickIter (s : TickState) (state : SessionState) : TickState × ℕ :=
  let linkPhase := state.phaseAtTime s.offset (1 / 24) * 24
  tickFrame s linkPhase state.tempo

/-- The state of `tickTask` at the start of loop iteration `n` (from 0), when
iteration `i` captures the session state `link i`. -/
def tickTask (offset0 : ℤ) (link : ℕ → SessionState) : ℕ → TickState
  | 0 => tickInit offset0
  | n + 1 => (tickIter (tickTask offset0 link n) (link n)).1

/-- The state after `n` frames from `s`, frame `i` being run with reference phase
`(inp i).1` and tempo `(inp i).2`. -/
def tickFrames (s : TickState) (inp : ℕ → ℚ × ℚ) : ℕ → TickState
  | 0 => s
  | n + 1 => (tickFrame (tickFrames s inp n) (inp n).1 (inp n).2).1

/-- The pulse decision `clk` of frame `n` (from 0) of that run. -/
def clkAt (s : TickState) (inp : ℕ → ℚ × ℚ) (n : ℕ) : ℕ :=
  (tickFrame (tickFrames s inp n) (inp n).1 (inp n).2).2

/-- Number of true (non-zero) pulse decisions among the first `n` frames. -/
def pulseCount (s : TickState) (inp : ℕ → ℚ × ℚ) : ℕ → ℕ
  | 0 => 0
  | n + 1 => pulseCount s inp n + (if clkAt s inp n ≠ 0 then 1 else 0)

theorem frame_dur_val : FRAME_DUR = 1 / 4000 := by
  norm_num [FRAME_DUR, FRAME_DUR_US]

theorem fmodf_one (x : ℚ) : fmodf x 1 = x - (truncf x : ℚ) := by
  simp [fmodf]

theorem fmodf_one_of_nonneg {x : ℚ} (h : 0 ≤ x) : fmodf x 1 = Int.fract x := by
  rw [fmodf_one, truncf, if_pos h]
  rfl

theorem fmodf_one_of_lt_one {x : ℚ} (h0 : 0 ≤ x) (h1 : x < 1) : fmodf x 1 = x := by
  rw [fmodf_one_of_nonneg h0]
  exact Int.fract_eq_self.mpr ⟨h0, h1⟩

theorem fmodf_one_of_lt_two {x : ℚ} (h1 : 1 ≤ x) (h2 : x < 2) : fmodf x 1 = x - 1 := by
  rw [fmodf_one_of_nonneg (by linarith)]
  have hf : ⌊x⌋ = 1 := by
    rw [Int.floor_eq_iff]
    constructor
    · exact_mod_cast h1
    · norm_num
      linarith
  rw [Int.fract, hf]
  norm_num

theorem generatePhase_snd (p r t : ℚ) :
    (generatePhase p r t).2 = fmodf (p + phaseDelta p r t) 1 := rfl

theorem generatePhase_fst (p r t : ℚ) :
    (generatePhase p r t).1 = fmodf (p + phaseDelta p r t) 1 := rfl

theorem phaseDelta_val (p r t : ℚ) :
    phaseDelta p r t = (t / 60 * 24 + 15 * (r - p)) / 4000 := by
  rw [phaseDelta, frame_dur_val]
  ring

theorem fmodf_one_mem_Ico {x : ℚ} (h : 0 ≤ x) : 0 ≤ fmodf x 1 ∧ fmodf x 1 < 1 := by
  rw [fmodf_one_of_nonneg h]
  exact ⟨Int.fract_nonneg x, Int.fract_lt_one x⟩

theorem fmodf_one_trunc (x : ℚ) :
    |fmodf x 1| < 1 ∧ (0 ≤ x → 0 ≤ fmodf x 1) ∧ (x ≤ 0 → fmodf x 1 ≤ 0) := by
  by_cases hx : 0 ≤ x
  · obtain ⟨h0, h1⟩ := fmodf_one_mem_Ico hx
    refine ⟨by rw [abs_lt]; constructor <;> linarith, fun _ => h0, fun hx0 => ?_⟩
    have hz : x = 0 := le_antisymm hx0 hx
    subst hz
    simp [fmodf, truncf]
  · have hc1 : (⌈x⌉ : ℚ) < x + 1 := Int.ceil_lt_add_one x
    have hc2 : x ≤ (⌈x⌉ : ℚ) := Int.le_ceil x
    have hv : fmodf x 1 = x - (⌈x⌉ : ℚ) := by rw [fmodf_one, truncf, if_neg hx]
    rw [hv]
    refine ⟨by rw [abs_lt]; constructor <;> linarith, fun h => absurd h hx, fun _ => by linarith⟩

/-- The sum handed to `fmodf` is a convex-like combination: it is never negative
for a phasor in `[0,1)`, a non-negative reference phase and a non-negative tempo. -/
theorem sum_nonneg {p r t : ℚ} (hp : 0 ≤ p) (hr : 0 ≤ r) (ht : 0 ≤ t) :
    0 ≤ p + phaseDelta p r t := by
  rw [phaseDelta_val]
  linarith

theorem sum_lt_two {p r t : ℚ} (hp : p < 1) (hr : r < 24) (ht : t ≤ 999) :
    p + phaseDelta p r t < 2 := by
  rw [phaseDelta_val]
  linarith

theorem wrapInt64_of_mem {x : ℤ} (h0 : -2 ^ 63 ≤ x) (h1 : x < 2 ^ 63) : wrapInt64 x = x := by
  unfold wrapInt64
  rw [Int.emod_eq_of_lt (by linarith) (by linarith)]
  ring

/-- Along every run of the loop the static `lastPhase` holds the current phasor. -/
theorem lastPhase_eq_phasor (s : TickState) (inp : ℕ → ℚ × ℚ) (h : s.lastPhase = s.phasor)
    (n : ℕ) : (tickFrames s inp n).lastPhase = (tickFrames s inp n).phasor := by
  cases n with
  | zero => exact h
  | succ n => rfl

/-- The loop of `tickTask` is a run of frames whose inputs are the values queried from the
captured session states. -/
theorem tickTask_eq_tickFrames (offset0 : ℤ) (link : ℕ → SessionState) (n : ℕ) :
    tickTask offset0 link n
      = tickFrames (tickInit offset0)
          (fun i => ((link i).phaseAtTime (tickTask offset0 link i).offset (1 / 24) * 24,
            (link i).tempo)) n := by
  induction n with
  | zero => rfl
  | succ n ih =>
    show (tickIter (tickTask offset0 link n) (link n)).1 = (tickFrame _ _ _).1
    rw [← ih]
    rfl

/-- The phasor stays in `[0,1)` along every run whose inputs are non-negative. -/
theorem phasor_mem_Ico (s : TickState) (inp : ℕ → ℚ × ℚ) (hs : 0 ≤ s.phasor ∧ s.phasor < 1)
    (h : ∀ i, 0 ≤ (inp i).1 ∧ 0 ≤ (inp i).2) (n : ℕ) :
    0 ≤ (tickFrames s inp n).phasor ∧ (tickFrames s inp n).phasor < 1 := by
  induction n with
  | zero => exact hs
  | succ n ih =>
    show 0 ≤ (generatePhase _ _ _).1 ∧ (generatePhase _ _ _).1 < 1
    rw [generatePhase_fst]
    exact fmodf_one_mem_Ico (sum_nonneg ih.1 (h n).1 (h n).2)

/-- The decision of one frame from a state whose `lastPhase` is the phasor. -/
theorem tickFrame_clk_iff (s : TickState) (r t : ℚ) (hl : s.lastPhase = s.phasor)
    (hp0 : 0 ≤ s.phasor) (hp1 : s.phasor < 1) (hr0 : 0 ≤ r) (hr1 : r < 24)
    (ht0 : 0 ≤ t) (ht1 : t ≤ 999) :
    ((tickFrame s r t).2 = 1 ↔ 1 ≤ s.phasor + phaseDelta s.phasor r t) ∧
    ((tickFrame s r t).2 = 0 ↔ s.phasor + phaseDelta s.phasor r t < 1) := by
  have h0 := sum_nonneg hp0 hr0 ht0 (p := s.phasor) (r := r) (t := t)
  have h2 := sum_lt_two hp1 hr1 ht1 (p := s.phasor) (r := r) (t := t)
  have hd : -(3 / 800 : ℚ) < phaseDelta s.phasor r t ∧ phaseDelta s.phasor r t < 1 / 4 := by
    rw [phaseDelta_val]
    constructor <;> linarith
  have hclk : (tickFrame s r t).2 =
      if fmodf (s.phasor + phaseDelta s.phasor r t) 1 - s.lastPhase < -(1 / 2) then 1 else 0 := rfl
  rw [hclk, hl]
  by_cases hw : 1 ≤ s.phasor + phaseDelta s.phasor r t
  · rw [fmodf_one_of_lt_two hw h2, if_pos (by linarith)]
    simp only [true_iff, one_ne_zero, false_iff, not_lt]
    exact ⟨hw, hw⟩
  · rw [fmodf_one_of_lt_one h0 (not_le.mp hw), if_neg (by linarith)]
    simp only [zero_ne_one, false_iff, true_iff]
    exact ⟨hw, not_le.mp hw⟩

/-- A run of frames depends on the inputs of the frames it runs only. -/
theorem tickFrames_congr (s : TickState) (inp inp' : ℕ → ℚ × ℚ) (n : ℕ)
    (h : ∀ i, i < n → inp i = inp' i) : tickFrames s inp n = tickFrames s inp' n := by
  induction n with
  | zero => rfl
  | succ n ih =>
    show (tickFrame (tickFrames s inp n) (inp n).1 (inp n).2).1
      = (tickFrame (tickFrames s inp' n) (inp' n).1 (inp' n).2).1
    rw [ih (fun i hi => h i (Nat.lt_succ_of_lt hi)), h n (Nat.lt_succ_self n)]

/-- The `offset` at the start of iteration `n` of the loop of `tickTask`, as long as no
addition left the signed 64-bit range. -/
theorem tickTask_offset_val (offset0 : ℤ) (link : ℕ → SessionState) (n : ℕ)
    (hlo : -2 ^ 63 ≤ offset0) (hhi : offset0 + (n : ℤ) * 250 < 2 ^ 63) :
    (tickTask offset0 link n).offset = offset0 + (n : ℤ) * 250 := by
  induction n with
  | zero => simp [tickTask, tickInit]
  | succ n ih =>
    have hn : offset0 + (n : ℤ) * 250 < 2 ^ 63 := by push_cast at hhi; linarith
    have hstep : (tickTask offset0 link (n + 1)).offset =
        wrapInt64 ((tickTask offset0 link n).offset + (FRAME_DUR_US : ℤ)) := rfl
    rw [hstep, ih hn, FRAME_DUR_US]
    push_cast at hhi ⊢
    rw [wrapInt64_of_mem (by linarith [Int.natCast_nonneg n]) (by linarith)]
    ring

/-! ## Runs at a constant input -/

theorem tickFrames_add (s : TickState) (c : ℚ × ℚ) (m n : ℕ) :
    tickFrames s (fun _ => c) (m + n) = tickFrames (tickFrames s (fun _ => c) m) (fun _ => c) n := by
  induction n with
  | zero => rfl
  | succ n ih =>
    show (tickFrame (tickFrames s (fun _ => c) (m + n)) c.1 c.2).1 = _
    rw [ih]
    rfl

theorem clkAt_add (s : TickState) (c : ℚ × ℚ) (m n : ℕ) :
    clkAt s (fun _ => c) (m + n) = clkAt (tickFrames s (fun _ => c) m) (fun _ => c) n := by
  show (tickFrame (tickFrames s (fun _ => c) (m + n)) c.1 c.2).2 = _
  rw [tickFrames_add]
  rfl

/-- With reference phase 0 and tempo 120 the un-wrapped sum is `797/800 * p + 3/250`. -/
theorem degraded_sum (p : ℚ) : p + phaseDelta p 0 120 = 797 / 800 * p + 3 / 250 := by
  rw [phaseDelta_val]
  ring

/-- While the closed form `16/5 - (16/5 - p) * (797/800)^n` stays below 1, a run at
reference 0 and tempo 120 follows it and yields no pulse. -/
theorem degraded_no_wrap (s : TickState) (hl : s.lastPhase = s.phasor) (h0 : 0 ≤ s.phasor)
    (h1 : s.phasor < 1) (n : ℕ)
    (hn : 16 / 5 - (16 / 5 - s.phasor) * (797 / 800) ^ n < 1) :
    (tickFrames s (fun _ => (0, 120)) n).phasor = 16 / 5 - (16 / 5 - s.phasor) * (797 / 800) ^ n
    ∧ ∀ k, k < n → clkAt s (fun _ => (0, 120)) k = 0 := by
  induction n with
  | zero => exact ⟨by simp [tickFrames], fun k hk => absurd hk (Nat.not_lt_zero k)⟩
  | succ n ih =>
    have hP : 0 < (16 / 5 - s.phasor) * (797 / 800 : ℚ) ^ n :=
      mul_pos (by linarith) (by positivity)
    have hpow : (16 / 5 - s.phasor) * (797 / 800 : ℚ) ^ (n + 1)
        = (16 / 5 - s.phasor) * (797 / 800 : ℚ) ^ n * (797 / 800) := by
      rw [pow_succ]
      ring
    rw [hpow] at hn ⊢
    obtain ⟨ihp, ihc⟩ := ih (by linarith)
    have hin : ∀ i : ℕ, 0 ≤ ((fun _ => ((0 : ℚ), (120 : ℚ))) i).1
        ∧ 0 ≤ ((fun _ => ((0 : ℚ), (120 : ℚ))) i).2 := fun _ => by norm_num
    obtain ⟨hq0, hq1⟩ := phasor_mem_Ico s (fun _ => (0, 120)) ⟨h0, h1⟩ hin n
    have hql := lastPhase_eq_phasor s (fun _ => (0, 120)) hl n
    have hsum := degraded_sum (tickFrames s (fun _ => (0, 120)) n).phasor
    have hlt : (tickFrames s (fun _ => (0, 120)) n).phasor
        + phaseDelta (tickFrames s (fun _ => (0, 120)) n).phasor 0 120 < 1 := by
      rw [hsum, ihp]
      linarith
    constructor
    · show (generatePhase (tickFrames s (fun _ => (0, 120)) n).phasor 0 120).1 = _
      rw [generatePhase_fst, fmodf_one_of_lt_one (sum_nonneg hq0 le_rfl (by norm_num)) hlt,
        hsum, ihp]
      ring
    · intro k hk
      rcases Nat.lt_succ_iff_lt_or_eq.mp hk with h | h
      · exact ihc k h
      · subst h
        exact (tickFrame_clk_iff _ 0 120 hql hq0 hq1 le_rfl (by norm_num) (by norm_num)
          (by norm_num)).2.mpr hlt

/-- One period at reference 0 and tempo 120: from a phasor in `[0, 33/4000)` the next 99
frames yield no pulse, the 100th does, and the phasor is back in `[0, 33/4000)`. -/
theorem degraded_cycle (s : TickState) (hl : s.lastPhase = s.phasor) (h0 : 0 ≤ s.phasor)
    (h1 : s.phasor < 33 / 4000) :
    (∀ k, k < 99 → clkAt s (fun _ => (0, 120)) k = 0)
    ∧ clkAt s (fun _ => (0, 120)) 99 = 1
    ∧ (tickFrames s (fun _ => (0, 120)) 100).lastPhase
        = (tickFrames s (fun _ => (0, 120)) 100).phasor
    ∧ 0 ≤ (tickFrames s (fun _ => (0, 120)) 100).phasor
    ∧ (tickFrames s (fun _ => (0, 120)) 100).phasor < 33 / 4000 := by
  have ha99 : (8800 / 12767 : ℚ) < (797 / 800) ^ 99 := by norm_num
  have ha100 : ((797 / 800 : ℚ)) ^ 100 ≤ 11 / 16 := by norm_num
  have hpos : (0 : ℚ) < (797 / 800) ^ 99 := by positivity
  have h99 : 16 / 5 - (16 / 5 - s.phasor) * (797 / 800) ^ 99 < 1 := by
    nlinarith
  obtain ⟨hp, hc⟩ := degraded_no_wrap s hl h0 (by linarith) 99 h99
  have hin : ∀ i : ℕ, 0 ≤ ((fun _ => ((0 : ℚ), (120 : ℚ))) i).1
      ∧ 0 ≤ ((fun _ => ((0 : ℚ), (120 : ℚ))) i).2 := fun _ => by norm_num
  obtain ⟨hq0, hq1⟩ := phasor_mem_Ico s (fun _ => (0, 120)) ⟨h0, by linarith⟩ hin 99
  have hql := lastPhase_eq_phasor s (fun _ => (0, 120)) hl 99
  have hsum := degraded_sum (tickFrames s (fun _ => (0, 120)) 99).phasor
  have hge : 1 ≤ (tickFrames s (fun _ => (0, 120)) 99).phasor
      + phaseDelta (tickFrames s (fun _ => (0, 120)) 99).phasor 0 120 := by
    rw [hsum, hp]
    have h100 : (797 / 800 : ℚ) ^ 100 = (797 / 800) ^ 99 * (797 / 800) := pow_succ _ _
    rw [h100] at ha100
    nlinarith
  refine ⟨hc, (tickFrame_clk_iff _ 0 120 hql hq0 hq1 le_rfl (by norm_num) (by norm_num)
    (by norm_num)).1.mpr hge, lastPhase_eq_phasor s (fun _ => (0, 120)) hl 100, ?_⟩
  have hnew : (tickFrames s (fun _ => (0, 120)) 100).phasor
      = (tickFrames s (fun _ => (0, 120)) 99).phasor
        + phaseDelta (tickFrames s (fun _ => (0, 120)) 99).phasor 0 120 - 1 := by
    show (generatePhase (tickFrames s (fun _ => (0, 120)) 99).phasor 0 120).1 = _
    rw [generatePhase_fst, fmodf_one_of_lt_two hge (sum_lt_two hq1 (by norm_num) (by norm_num))]
  rw [hnew]
  constructor
  · linarith
  · rw [hsum]
    linarith

/-- At reference 0 and tempo 120, from the initial state, every 100th frame starts with
`lastPhase` equal to the phasor and the phasor in `[0, 33/4000)`. -/
theorem degraded_period_start (offset0 : ℤ) (q : ℕ) :
    (tickFrames (tickInit offset0) (fun _ => (0, 120)) (100 * q)).lastPhase
      = (tickFrames (tickInit offset0) (fun _ => (0, 120)) (100 * q)).phasor
    ∧ 0 ≤ (tickFrames (tickInit offset0) (fun _ => (0, 120)) (100 * q)).phasor
    ∧ (tickFrames (tickInit offset0) (fun _ => (0, 120)) (100 * q)).phasor < 33 / 4000 := by
  induction q with
  | zero =>
    simp only [Nat.mul_zero, tickFrames, tickInit]
    norm_num
  | succ q ih =>
    obtain ⟨hl, h0, h1⟩ := ih
    have hq : 100 * (q + 1) = 100 * q + 100 := by ring
    rw [hq, tickFrames_add]
    exact (degraded_cycle _ hl h0 h1).2.2

/-- At reference 0 and tempo 120, from the initial state, the decision of frame `n` is 1
exactly when `n % 100 = 99`. -/
theorem degraded_clk (offset0 : ℤ) (n : ℕ) :
    clkAt (tickInit offset0) (fun _ => (0, 120)) n = if n % 100 = 99 then 1 else 0 := by
  obtain ⟨hl, h0, h1⟩ := degraded_period_start offset0 (n / 100)
  have hn : n = 100 * (n / 100) + n % 100 := (Nat.div_add_mod n 100).symm
  have hc := degraded_cycle _ hl h0 h1
  have hlt : n % 100 < 100 := Nat.mod_lt n (by norm_num)
  conv_lhs => rw [hn]
  rw [clkAt_add]
  by_cases h : n % 100 = 99
  · rw [if_pos h, h]
    exact hc.2.1
  · rw [if_neg h]
    exact hc.1 _ (by omega)

theorem degraded_count (offset0 : ℤ) (n : ℕ) :
    pulseCount (tickInit offset0) (fun _ => (0, 120)) n = n / 100 := by
  induction n with
  | zero => rfl
  | succ n ih =>
    show pulseCount (tickInit offset0) (fun _ => (0, 120)) n
      + (if clkAt (tickInit offset0) (fun _ => (0, 120)) n ≠ 0 then 1 else 0) = _
    rw [ih, degraded_clk]
    by_cases h : n % 100 = 99
    · rw [if_pos h, if_pos one_ne_zero]
      omega
    · rw [if_neg h, if_neg (not_not.mpr rfl)]
      omega

/-! ## Runs locked to a reference advancing at the tempo -/

/-- C1: one call of `generatePhase (r, t)` with current phasor `p` sets the static and
returns `fmodf (p + (t/60*24 + 15*(r - p)) * F, 1)` with `F = 250/1000000`; `fmodf (x, 1)`
is `x` minus an integer, of magnitude below 1 and with the sign of `x` (the truncated
remainder); the phasor is 0 on entry to the loop. -/
theorem generatePhase_formula (p r t : ℚ) :
    generatePhase p r t =
      (fmodf (p + (t / 60 * 24 + 15 * (r - p)) * (250 / 1000000)) 1,
       fmodf (p + (t / 60 * 24 + 15 * (r - p)) * (250 / 1000000)) 1)
    ∧ (∀ x : ℚ, (∃ n : ℤ, fmodf x 1 = x - n) ∧ |fmodf x 1| < 1
        ∧ (0 ≤ x → 0 ≤ fmodf x 1) ∧ (x ≤ 0 → fmodf x 1 ≤ 0))
    ∧ (∀ offset0 : ℤ, (tickInit offset0).phasor = 0) := by
  refine ⟨?_, fun x => ⟨⟨truncf x, fmodf_one x⟩, fmodf_one_trunc x⟩, fun _ => rfl⟩
  have hs : p + (t / 60 * 24 + 15 * (r - p)) * (250 / 1000000) = p + phaseDelta p r t := by
    rw [phaseDelta, FRAME_DUR, FRAME_DUR_US]
    push_cast
    ring
  rw [hs]
  rfl

/-- C1 at a concrete input: from phasor 0 with reference 0 and tempo 120 the call
returns 3/250. -/
theorem generatePhase_formula_witness :
    generatePhase 0 0 120 = (3 / 250, 3 / 250) ∧ (0 : ℚ) ≤ fmodf (7 / 2) 1 := by
  obtain ⟨h, hx, _⟩ := generatePhase_formula 0 0 120
  refine ⟨?_, (hx (7 / 2)).2.2.1 (by norm_num)⟩
  rw [h, fmodf_one_of_lt_one (by norm_num) (by norm_num)]
  norm_num

/-- C5: built with `USB_MIDI` (packet framing), one firing of `timer_group0_isr` makes one
dequeue attempt (the queue loses its oldest item, if any) and calls `uart_write_bytes`
exactly once, with the bytes `0x0F 0xF8 0x00 0x00`, when the queue was non-empty and the
dequeued decision is non-zero; it writes nothing when the queue was empty or the decision
is zero. So at most one message is written per firing, whatever the queue holds. -/
theorem isr_packet_emission (q : List ℕ) :
    (timer_group0_isr USB_MIDI q).gBuf = q.tail
    ∧ (timer_group0_isr USB_MIDI q).writes =
        (match q with
          | [] => []
          | clk :: _ => if clk ≠ 0 then [[0x0F, 0xF8, 0x00, 0x00]] else [])
    ∧ (timer_group0_isr USB_MIDI q).writes.length ≤ 1 := by
  cases q with
  | nil => simp [timer_group0_isr, xQueueReceiveFromISR]
  | cons clk rest =>
    by_cases h : clk = 0
    · simp [timer_group0_isr, xQueueReceiveFromISR, h]
    · simp [timer_group0_isr, xQueueReceiveFromISR, h, USB_MIDI]

/-- C6 (the code at the failing configuration): with `USB_MIDI` defined as `false`,
`initUartPort` selects the raw 31250 baud configuration, yet the handler, which tests
`#ifdef USB_MIDI`, still writes the 4-byte packet for a true decision, not the single
byte `0xF8`. -/
theorem isr_raw_mode_mismatch :
    (initUartPort false).baud_rate = 31250
    ∧ (timer_group0_isr (some false) [1]).writes = [[0x0F, 0xF8, 0x00, 0x00]]
    ∧ (timer_group0_isr (some false) [1]).writes ≠ [[0xF8]] := by
  decide

/-- C10: whatever session states the phase source returns, iteration `n` of the loop of
`tickTask` queries the reference phase at the initial offset plus `n * 250` microseconds:
the `offset` it holds at the start of that iteration has this value, the iteration is
the frame run on `phaseAtTime (offset0 + n * 250, 1/24) * 24` of the captured state, and
the whole loop depends on the phase source only through its values at these times. This
holds as long as the offset is in the range of the signed 64-bit count (beyond it the
C++ addition is undefined). -/
theorem tickTask_offset (offset0 : ℤ) (link : ℕ → SessionState) (n : ℕ)
    (hlo : -2 ^ 63 ≤ offset0) (hhi : offset0 + (n : ℤ) * 250 < 2 ^ 63) :
    (tickTask offset0 link n).offset = offset0 + (n : ℤ) * 250
    ∧ tickIter (tickTask offset0 link n) (link n)
        = tickFrame (tickTask offset0 link n)
            ((link n).phaseAtTime (offset0 + (n : ℤ) * 250) (1 / 24) * 24) (link n).tempo
    ∧ tickTask offset0 link n
        = tickFrames (tickInit offset0)
            (fun i => ((link i).phaseAtTime (offset0 + (i : ℤ) * 250) (1 / 24) * 24,
              (link i).tempo)) n := by
  have hoff := tickTask_offset_val offset0 link n hlo hhi
  refine ⟨hoff, ?_, ?_⟩
  · show tickFrame _ ((link n).phaseAtTime (tickTask offset0 link n).offset (1 / 24) * 24) _ = _
    rw [hoff]
  · rw [tickTask_eq_tickFrames]
    refine tickFrames_congr _ _ _ n (fun i hi => ?_)
    have hi' : offset0 + (i : ℤ) * 250 < 2 ^ 63 := by
      have : (i : ℤ) < (n : ℤ) := by exact_mod_cast hi
      linarith
    show ((link i).phaseAtTime (tickTask offset0 link i).offset (1 / 24) * 24, (link i).tempo) = _
    rw [tickTask_offset_val offset0 link i hlo hi']

/-- C10 at a concrete run: started at offset 1000 against a phase source whose phase is
1/48 at time 1250 and 0 at every other time, with tempo 0. Iteration 1 queries at time
1250, so the phasor after two iterations is `15 * (1/2) / 4000 = 3/1600`; the query of
iteration 3 is made at offset 1750. -/
theorem tickTask_offset_witness :
    (tickTask 1000
      (fun _ => { tempo := 0, phaseAtTime := fun t _ => if t = 1250 then 1 / 48 else 0 })
      2).phasor = 3 / 1600
    ∧ (tickTask 1000
      (fun _ => { tempo := 0, phaseAtTime := fun t _ => if t = 1250 then 1 / 48 else 0 })
      3).offset = 1750 := by
  constructor
  · rw [(tickTask_offset 1000
      (fun _ => { tempo := 0, phaseAtTime := fun t _ => if t = 1250 then 1 / 48 else 0 })
      2 (by norm_num) (by norm_num)).2.2]
    show (generatePhase (generatePhase 0 _ _).1 _ _).1 = _
    norm_num only [generatePhase_fst, phaseDelta_val, Nat.cast_zero, Nat.cast_one]
    norm_num
    rw [fmodf_one_of_lt_one le_rfl (by norm_num)]
    norm_num
    rw [fmodf_one_of_lt_one (by norm_num) (by norm_num)]
  · rw [(tickTask_offset 1000
      (fun _ => { tempo := 0, phaseAtTime := fun t _ => if t = 1250 then 1 / 48 else 0 })
      3 (by norm_num) (by norm_num)).1]
    norm_num

/-- C3: from the initial phasor 0, after any number of frames driven by reference phases in
`[0,24)` and tempos `≥ 0`, the phasor is in `[0,1)`, and so is the value the next call of
`generatePhase` returns. -/
theorem phasor_range (offset0 : ℤ) (inp : ℕ → ℚ × ℚ)
    (h : ∀ i, 0 ≤ (inp i).1 ∧ (inp i).1 < 24 ∧ 0 ≤ (inp i).2) (n : ℕ) :
    (0 ≤ (tickFrames (tickInit offset0) inp n).phasor
      ∧ (tickFrames (tickInit offset0) inp n).phasor < 1)
    ∧ (0 ≤ (generatePhase (tickFrames (tickInit offset0) inp n).phasor (inp n).1 (inp n).2).2
      ∧ (generatePhase (tickFrames (tickInit offset0) inp n).phasor (inp n).1 (inp n).2).2 < 1) := by
  have hin : ∀ i, 0 ≤ (inp i).1 ∧ 0 ≤ (inp i).2 := fun i => ⟨(h i).1, (h i).2.2⟩
  have hs : 0 ≤ (tickInit offset0).phasor ∧ (tickInit offset0).phasor < 1 := by
    simp [tickInit]
  exact ⟨phasor_mem_Ico _ inp hs hin n, phasor_mem_Ico _ inp hs hin (n + 1)⟩

/-- C3 at a concrete run: reference 23 and tempo 999 on every frame, three frames. -/
theorem phasor_range_witness :
    0 ≤ (tickFrames (tickInit 0) (fun _ => (23, 999)) 3).phasor
    ∧ (tickFrames (tickInit 0) (fun _ => (23, 999)) 3).phasor < 1 :=
  (phasor_range 0 (fun _ => (23, 999)) (fun _ => by norm_num) 3).1

/-- C2: in every frame of a run of `tickTask` in which the phasor before the step is in
`[0,1)`, the reference phase in `[0,24)` and the tempo in `[0,999]`, `lastPhase` is the
phasor before the step, and the decision `clk` is 1 exactly when the un-wrapped sum
`p + delta` reached 1 and 0 exactly when it did not; a frame that does not wrap yields
no pulse however the phasor moves. -/
theorem pulse_iff_wrap (offset0 : ℤ) (inp : ℕ → ℚ × ℚ) (n : ℕ)
    (hp0 : 0 ≤ (tickFrames (tickInit offset0) inp n).phasor)
    (hp1 : (tickFrames (tickInit offset0) inp n).phasor < 1)
    (hr0 : 0 ≤ (inp n).1) (hr1 : (inp n).1 < 24)
    (ht0 : 0 ≤ (inp n).2) (ht1 : (inp n).2 ≤ 999) :
    (tickFrames (tickInit offset0) inp n).lastPhase = (tickFrames (tickInit offset0) inp n).phasor
    ∧ (clkAt (tickInit offset0) inp n = 1 ↔
        1 ≤ (tickFrames (tickInit offset0) inp n).phasor
          + phaseDelta (tickFrames (tickInit offset0) inp n).phasor (inp n).1 (inp n).2)
    ∧ (clkAt (tickInit offset0) inp n = 0 ↔
        (tickFrames (tickInit offset0) inp n).phasor
          + phaseDelta (tickFrames (tickInit offset0) inp n).phasor (inp n).1 (inp n).2 < 1) := by
  have hl := lastPhase_eq_phasor (tickInit offset0) inp rfl n
  exact ⟨hl, tickFrame_clk_iff _ _ _ hl hp0 hp1 hr0 hr1 ht0 ht1⟩

/-- C2 at a concrete frame: the first frame with reference 0 and tempo 120 does not wrap
(`0 + 3/250 < 1`) and its decision is 0. -/
theorem pulse_iff_wrap_witness : clkAt (tickInit 0) (fun _ => (0, 120)) 0 = 0 := by
  have h := pulse_iff_wrap 0 (fun _ => (0, 120)) 0 (by simp [tickFrames, tickInit])
    (by simp [tickFrames, tickInit]) (by norm_num) (by norm_num) (by norm_num) (by norm_num)
  refine h.2.2.mpr ?_
  simp only [tickFrames, tickInit]
  rw [phaseDelta_val]
  norm_num

/-- C9 fails as stated: from phasor 1/2 with reference phase 0 and tempo 1 bpm the step
does not wrap (`1/2 + delta < 1`) and the new phasor 19929/40000 is below 1/2. -/
theorem phasor_monotone_counterexample :
    ((0 : ℚ) ≤ 1 / 2 ∧ (1 / 2 : ℚ) < 1 ∧ (0 : ℚ) ≤ 0 ∧ (0 : ℚ) < 24 ∧ (0 : ℚ) < 1)
    ∧ (generatePhase (1 / 2) 0 1).2 = 19929 / 40000
    ∧ ¬ ((1 / 2 : ℚ) ≤ (generatePhase (1 / 2) 0 1).2 ∨ 1 ≤ 1 / 2 + phaseDelta (1 / 2) 0 1) := by
  have hv : (generatePhase (1 / 2) 0 1).2 = 19929 / 40000 := by
    rw [generatePhase_snd, phaseDelta_val, fmodf_one_of_lt_one (by norm_num) (by norm_num)]
    norm_num
  refine ⟨by norm_num, hv, ?_⟩
  rw [hv, phaseDelta_val]
  norm_num

/-- C9 as amended: for a phasor `p` in `[0,1)`, a reference phase in `[0,24)` and a tempo
`> 0`, the step advances the phasor or wraps exactly when the combined rate
`t/60*24 + 15*(r - p)` is non-negative; in particular whenever the reference phase is not
behind the phasor. -/
theorem phasor_advance_iff (p r t : ℚ) (hp0 : 0 ≤ p) (_hp1 : p < 1) (hr0 : 0 ≤ r)
    (_hr1 : r < 24) (ht : 0 < t) :
    ((p ≤ (generatePhase p r t).2 ∨ 1 ≤ p + phaseDelta p r t)
        ↔ 0 ≤ t / 60 * 24 + 15 * (r - p))
    ∧ (p ≤ r → (p ≤ (generatePhase p r t).2 ∨ 1 ≤ p + phaseDelta p r t)) := by
  have hiff : (p ≤ (generatePhase p r t).2 ∨ 1 ≤ p + phaseDelta p r t)
      ↔ 0 ≤ t / 60 * 24 + 15 * (r - p) := by
    have h0 := sum_nonneg hp0 hr0 ht.le (p := p) (r := r) (t := t)
    have hd := phaseDelta_val p r t
    by_cases hw : 1 ≤ p + phaseDelta p r t
    · constructor
      · intro _
        linarith
      · intro _
        exact Or.inr hw
    · rw [generatePhase_snd, fmodf_one_of_lt_one h0 (not_le.mp hw)]
      constructor
      · rintro (h | h)
        · linarith
        · exact absurd h hw
      · intro h
        left
        linarith
  refine ⟨hiff, fun hpr => hiff.mpr ?_⟩
  have : 0 ≤ r - p := sub_nonneg.mpr hpr
  linarith

/-- C9 as amended, at a concrete step: phasor 1/2, reference 3/4, tempo 120. -/
theorem phasor_advance_iff_witness :
    (1 / 2 : ℚ) ≤ (generatePhase (1 / 2) (3 / 4) 120).2
      ∨ 1 ≤ 1 / 2 + phaseDelta (1 / 2) (3 / 4) 120 :=
  (phasor_advance_iff (1 / 2) (3 / 4) 120 (by norm_num) (by norm_num) (by norm_num)
    (by norm_num) (by norm_num)).2 (by norm_num)

/-- C7 fails as stated, for two reasons. With reference 499/1000 and tempo 120 held
constant, the step from phasor 1/2 takes the error magnitude from 1/1000 to about 13/1000
(the tempo term moves the phasor away). With reference 23 and tempo 0, the step from
phasor 99/100 wraps and the error magnitude grows from 22.01 to about 22.93. -/
theorem convergence_counterexample :
    ((499 / 1000 : ℚ) - 1 / 2 ≠ 0
      ∧ ¬ (|(499 / 1000 : ℚ) - (generatePhase (1 / 2) (499 / 1000) 120).2|
            < |(499 / 1000 : ℚ) - 1 / 2|))
    ∧ ((23 : ℚ) - 99 / 100 ≠ 0
      ∧ ¬ (|(23 : ℚ) - (generatePhase (99 / 100) 23 0).2| < |(23 : ℚ) - 99 / 100|)) := by
  have h1 : (generatePhase (1 / 2) (499 / 1000) 120).2 = 409597 / 800000 := by
    rw [generatePhase_snd, phaseDelta_val, fmodf_one_of_lt_one (by norm_num) (by norm_num)]
    norm_num
  have h2 : (generatePhase (99 / 100) 23 0).2 = 5803 / 80000 := by
    rw [generatePhase_snd, phaseDelta_val, fmodf_one_of_lt_two (by norm_num) (by norm_num)]
    norm_num
  rw [h1, h2]
  refine ⟨⟨by norm_num, ?_⟩, ⟨by norm_num, ?_⟩⟩
  · rw [abs_of_neg (by norm_num), abs_of_neg (by norm_num)]
    norm_num
  · rw [abs_of_pos (by norm_num), abs_of_pos (by norm_num)]
    norm_num

/-- C7 as amended: for a constant reference phase `r` in `[0,24)` and tempo `t ≥ 0`, a
step from a phasor `p` in `[0,1)` that does not wrap maps the error `r - p` to
`(1 - 15 F) (r - p) - t/60*24*F`; its magnitude strictly decreases exactly when the tempo
term is outweighed: `t/60*24*F < (2 - 15 F) (r - p)` if `p < r`, or
`t/60*24*F < 15 F (p - r)` if `r < p`. In particular at tempo 0 every non-wrapping step
with non-zero error strictly decreases the error magnitude. -/
theorem error_contraction (p r t : ℚ) (hp0 : 0 ≤ p) (hr0 : 0 ≤ r) (ht : 0 ≤ t)
    (hnw : p + phaseDelta p r t < 1) :
    r - (generatePhase p r t).2 = (1 - 15 * FRAME_DUR) * (r - p) - t / 60 * 24 * FRAME_DUR
    ∧ (|r - (generatePhase p r t).2| < |r - p|
        ↔ (p < r ∧ t / 60 * 24 * FRAME_DUR < (2 - 15 * FRAME_DUR) * (r - p))
          ∨ (r < p ∧ t / 60 * 24 * FRAME_DUR < 15 * FRAME_DUR * (p - r)))
    ∧ (t = 0 → r ≠ p → |r - (generatePhase p r t).2| < |r - p|) := by
  have h0 := sum_nonneg hp0 hr0 ht (p := p) (r := r) (t := t)
  have hd := phaseDelta_val p r t
  have hnew : (generatePhase p r t).2 = p + phaseDelta p r t := by
    rw [generatePhase_snd, fmodf_one_of_lt_one h0 hnw]
  have hiff : |r - (generatePhase p r t).2| < |r - p|
      ↔ (p < r ∧ t / 60 * 24 * FRAME_DUR < (2 - 15 * FRAME_DUR) * (r - p))
        ∨ (r < p ∧ t / 60 * 24 * FRAME_DUR < 15 * FRAME_DUR * (p - r)) := by
    rw [hnew, frame_dur_val, abs_lt]
    rcases lt_trichotomy p r with h | h | h
    · rw [abs_of_pos (sub_pos.mpr h)]
      constructor
      · rintro ⟨_, h2⟩
        left
        exact ⟨h, by linarith⟩
      · rintro (⟨_, h2⟩ | ⟨h1, _⟩)
        · constructor <;> linarith
        · linarith
    · subst h
      simp only [sub_self, abs_zero, neg_zero, lt_self_iff_false, false_and, or_self,
        iff_false, not_and, not_lt]
      intro _
      linarith
    · rw [abs_of_neg (sub_neg.mpr h)]
      constructor
      · rintro ⟨h1, _⟩
        right
        exact ⟨h, by linarith⟩
      · rintro (⟨h1, _⟩ | ⟨_, h2⟩)
        · linarith
        · constructor <;> linarith
  refine ⟨?_, hiff, fun ht0 hne => hiff.mpr ?_⟩
  · rw [hnew, hd, frame_dur_val]
    ring
  · subst ht0
    rw [frame_dur_val]
    rcases lt_or_gt_of_ne hne with h | h
    · right
      exact ⟨h, by linarith⟩
    · left
      exact ⟨h, by linarith⟩

/-- C7 as amended, at a concrete step: reference 2/5, tempo 0, phasor 1/2. -/
theorem error_contraction_witness :
    |(2 / 5 : ℚ) - (generatePhase (1 / 2) (2 / 5) 0).2| < |(2 / 5 : ℚ) - 1 / 2| :=
  (error_contraction (1 / 2) (2 / 5) 0 (by norm_num) (by norm_num) (by norm_num)
    (by rw [phaseDelta_val]; norm_num)).2.2 rfl (by norm_num)

/-- C8 fails as stated: with reference phase 0 and tempo 120 on every frame, from the
initial state, there is no true decision among frames 0 to 84, nor among the first 99
frames; frame 99 is the first true decision and frame 199 the second, with none between
(199 frames hold exactly one), so pulses are 100 frames apart, and 4000 frames (one
second) hold 40 pulses, not 48. -/
theorem degraded_rate_counterexample :
    pulseCount (tickInit 0) (fun _ => (0, 120)) 85 = 0
    ∧ pulseCount (tickInit 0) (fun _ => (0, 120)) 99 = 0
    ∧ clkAt (tickInit 0) (fun _ => (0, 120)) 99 = 1
    ∧ pulseCount (tickInit 0) (fun _ => (0, 120)) 199 = 1
    ∧ clkAt (tickInit 0) (fun _ => (0, 120)) 199 = 1
    ∧ pulseCount (tickInit 0) (fun _ => (0, 120)) 4000 = 40 := by
  refine ⟨?_, ?_, ?_, ?_, ?_, ?_⟩
  · rw [degraded_count]
  · rw [degraded_count]
  · rw [degraded_clk]
    rfl
  · rw [degraded_count]
  · rw [degraded_clk]
    rfl
  · rw [degraded_count]

/-- C8 as amended: with the tempo held at 120 bpm and the reference phase held at 0 on
every frame, from phasor 0, the decision of frame `n` (from 0) is true exactly when
`n % 100 = 99`: a pulse every 100 frames of 250 us, 40 per second, the first at frame 99;
the first `n` frames hold `n / 100` true decisions. -/
theorem degraded_rate (offset0 : ℤ) (n : ℕ) :
    clkAt (tickInit offset0) (fun _ => (0, 120)) n = (if n % 100 = 99 then 1 else 0)
    ∧ pulseCount (tickInit offset0) (fun _ => (0, 120)) n = n / 100 :=
  ⟨degraded_clk offset0 n, degraded_count offset0 n⟩

end LinkEsp
